import Mathlib

/-!
Verification model of `rust-runtime/aws-smithy-http/src/event_stream/output.rs`:
the event-stream `Receiver` (buffer state machine, chunk pull-decode loop,
initial-response peek, and error classification).

Bytes are modelled as natural numbers, `SegmentedBuf<Bytes>` as a flat byte
list (only its content and remaining length are observable through the
receiver logic).  The frame decoder, the unmarshaller and the chunk source are
external collaborators (crate `aws-smithy-eventstream` resp. the HTTP body);
they are modelled from the spec's collaborator contracts as function fields /
a list of pending chunk-pull results.  Rust panics (contract violations) are
made explicit as a `fatal` outcome.
-/

namespace SmithyHttp

/-- A byte of the response body. -/
abbrev Byte := Nat

/-- A byte string (models `Bytes` / the contents of a `SegmentedBuf<Bytes>`). -/
abbrev ByteSeq := List Byte

/-- Modelled from the spec: header values of a decoded frame
(`aws_smithy_eventstream::frame::HeaderValue`, not under src/).  Only the
string variant is inspected by the receiver (`value().as_string()`); all other
variants are collapsed into `nonString`. -/
inductive HeaderValue
  | string (s : String)
  | nonString (tag : Nat)
  deriving DecidableEq, Repr

/-- Modelled from the spec: `value().as_string()` succeeds only on the string
variant. -/
def HeaderValue.as_string : HeaderValue → Option String
  | .string s => some s
  | .nonString _ => none

/-- Modelled from the spec: a header of a decoded frame
(`aws_smithy_eventstream::frame::Header`, not under src/). -/
structure Header where
  name : String
  value : HeaderValue
  deriving DecidableEq, Repr

/-- Modelled from the spec: a decoded frame
(`aws_smithy_eventstream::frame::Message`, not under src/): a list of headers
plus a payload. -/
structure Message where
  headers : List Header
  payload : ByteSeq
  deriving DecidableEq, Repr

/-- Wrapper around the byte buffer that tracks the state of the stream
(source enum `RecvBuf`; `Partial` / `EosPartial` are named `buffering` /
`ended` after the spec's Buffering/Ended variants). -/
inductive RecvBuf
  | empty
  | buffering (data : ByteSeq)
  | ended (data : ByteSeq)
  deriving DecidableEq, Repr

namespace RecvBuf

/-- Source `RecvBuf::has_data`: true if there is more buffered data. -/
def has_data : RecvBuf → Bool
  | .empty => false
  | .buffering data => !data.isEmpty
  | .ended data => !data.isEmpty

/-- Source `RecvBuf::is_eos`: true if the stream has ended. -/
def is_eos : RecvBuf → Bool
  | .ended _ => true
  | _ => false

/-- Source `RecvBuf::buffered`: the underlying buffered data; `none` models
the panic on `Empty` ("buffer must be populated before reading"). -/
def buffered : RecvBuf → Option ByteSeq
  | .empty => none
  | .buffering data => some data
  | .ended data => some data

/-- Source `RecvBuf::with_partial`: buffer additional data; `none` models the
panic on an ended buffer ("cannot buffer more data after the stream has
ended"). -/
def appendChunk : RecvBuf → ByteSeq → Option RecvBuf
  | .empty, chunk => some (.buffering chunk)
  | .buffering data, chunk => some (.buffering (data ++ chunk))
  | .ended _, _ => none

/-- Source `RecvBuf::ended`: mark end of stream; `none` models the panic when
already ended ("already end of stream"). -/
def markEnded : RecvBuf → Option RecvBuf
  | .empty => some (.ended [])
  | .buffering data => some (.ended data)
  | .ended _ => none

/-- Observation used by the proofs: the bytes currently buffered. -/
def bytes : RecvBuf → ByteSeq
  | .empty => []
  | .buffering data => data
  | .ended data => data

@[simp] theorem has_data_empty : has_data .empty = false := rfl
@[simp] theorem has_data_buffering (d : ByteSeq) :
    has_data (.buffering d) = !d.isEmpty := rfl
@[simp] theorem has_data_ended (d : ByteSeq) :
    has_data (.ended d) = !d.isEmpty := rfl
@[simp] theorem is_eos_empty : is_eos .empty = false := rfl
@[simp] theorem is_eos_buffering (d : ByteSeq) : is_eos (.buffering d) = false := rfl
@[simp] theorem is_eos_ended (d : ByteSeq) : is_eos (.ended d) = true := rfl
@[simp] theorem buffered_empty : buffered .empty = none := rfl
@[simp] theorem buffered_buffering (d : ByteSeq) : buffered (.buffering d) = some d := rfl
@[simp] theorem buffered_ended (d : ByteSeq) : buffered (.ended d) = some d := rfl
@[simp] theorem appendChunk_empty (c : ByteSeq) :
    appendChunk .empty c = some (.buffering c) := rfl
@[simp] theorem appendChunk_buffering (d c : ByteSeq) :
    appendChunk (.buffering d) c = some (.buffering (d ++ c)) := rfl
@[simp] theorem appendChunk_ended (d c : ByteSeq) :
    appendChunk (.ended d) c = none := rfl
@[simp] theorem markEnded_empty : markEnded .empty = some (.ended []) := rfl
@[simp] theorem markEnded_buffering (d : ByteSeq) :
    markEnded (.buffering d) = some (.ended d) := rfl
@[simp] theorem markEnded_ended (d : ByteSeq) : markEnded (.ended d) = none := rfl
@[simp] theorem bytes_empty : bytes .empty = [] := rfl
@[simp] theorem bytes_buffering (d : ByteSeq) : bytes (.buffering d) = d := rfl
@[simp] theorem bytes_ended (d : ByteSeq) : bytes (.ended d) = d := rfl

end RecvBuf

/-- Raw message attached to a `ResponseError` (source enum `RawMessage`). -/
inductive RawMessage
  | decoded (m : Message)
  | invalid (bytes : Option ByteSeq)
  deriving DecidableEq, Repr

/-- Modelled from the spec: the external error type shared by the frame
decoder and the unmarshaller (`aws_smithy_eventstream::error::Error`, not
under src/); its internal structure is irrelevant to the receiver. -/
structure EventStreamError where
  code : Nat
  deriving DecidableEq, Repr

/-- The boxed error stored inside a `ResponseError`: either an event-stream
error (from the decoder or the unmarshaller) or the receiver's own
`Error::UnexpectedEndOfStream` (truncated frame at end of stream). -/
inductive RespError
  | eventStream (e : EventStreamError)
  | unexpectedEndOfStream
  deriving DecidableEq, Repr

/-- Modelled from the spec: `ConnectorError::io` wrapping a transport error
(identified by a code). -/
inductive ConnectorError
  | io (code : Nat)
  deriving DecidableEq, Repr

/-- The `SdkError` variants produced by the receiver. -/
inductive SdkError (E : Type)
  | dispatchFailure (e : ConnectorError)
  | responseError (err : RespError) (raw : RawMessage)
  | serviceError (err : E) (raw : RawMessage)
  deriving DecidableEq, Repr

/-- Modelled from the spec: the decoder's verdict on the buffered bytes
(`DecodedFrame` plus the surrounding `Result`).  `complete` carries the bytes
the decoder left in the buffer after extracting one frame; `decodeFailure`
carries whatever bytes the failed parse left behind. -/
inductive DecodedFrame
  | complete (message : Message) (rest : ByteSeq)
  | incomplete
  | decodeFailure (err : EventStreamError) (rest : ByteSeq)
  deriving DecidableEq, Repr

/-- Modelled from the spec: the unmarshaller's output
(`UnmarshalledMessage`, not under src/): a typed event or a modeled error. -/
inductive UnmarshalledMessage (T E : Type)
  | event (t : T)
  | error (e : E)
  deriving DecidableEq, Repr

/-- Named contract violations (Rust panics) of the `RecvBuf` operations. -/
inductive FatalKind
  | bufferEmptyRead
  | appendAfterEos
  | alreadyEnded
  deriving DecidableEq, Repr

/-- Outcome of a receiver operation: a value with the updated receiver state,
an `SdkError` with the updated receiver state, or a contract violation
(panic). -/
inductive Step (ε σ α : Type)
  | ok (value : α) (state : σ)
  | fail (error : ε) (state : σ)
  | fatal (kind : FatalKind)

/-- Lifts the plain `Result` of `Receiver::unmarshall` into a `Step` at a
given receiver state. -/
def Step.liftE {ε σ α : Type} (s : σ) : Except ε α → Step ε σ α
  | .ok v => .ok v s
  | .error e => .fail e s

deriving instance DecidableEq for Except

/-- One pending pull result of the chunk source (one `body.data()` result):
a chunk of bytes, or a transport error code. -/
abbrev BodyItem := Except Nat ByteSeq

/-- Receives Smithy-modeled messages out of an event stream (source struct
`Receiver<T, E>`).  The unmarshaller and the frame decoder are the external
collaborators as function fields; `body` is the sequence of results the chunk
source will deliver (pulling past its end signals clean end of stream). -/
structure Receiver (T E : Type) where
  unmarshaller : Message → Except EventStreamError (UnmarshalledMessage T E)
  decode_frame : ByteSeq → DecodedFrame
  buffer : RecvBuf
  body : List BodyItem
  buffered_message : Option Message

variable {T E : Type}

/-- Source `Receiver::unmarshall`: classify a decoded frame via the
unmarshaller into an event, a service error (carrying the decoded frame), or
a response error (schema mismatch, carrying the decoded frame). -/
def Receiver.unmarshall (r : Receiver T E) (message : Message) :
    Except (SdkError E) (Option T) :=
  match r.unmarshaller message with
  | .ok (.event event) => .ok (some event)
  | .ok (.error err) => .error (.serviceError err (.decoded message))
  | .error err => .error (.responseError (.eventStream err) (.decoded message))

/-- Source `Receiver::buffer_next_chunk`: pull one chunk from the body unless
the stream already ended; an error from the source is surfaced as a
`DispatchFailure`, a missing chunk marks end of stream. -/
def Receiver.buffer_next_chunk (r : Receiver T E) :
    Step (SdkError E) (Receiver T E) Unit :=
  if r.buffer.is_eos then .ok () r
  else
    match r.body with
    | [] =>
      match r.buffer.markEnded with
      | some b => .ok () { r with buffer := b, body := [] }
      | none => .fatal .alreadyEnded
    | .error e :: rest => .fail (.dispatchFailure (.io e)) { r with body := rest }
    | .ok chunk :: rest =>
      match r.buffer.appendChunk chunk with
      | some b => .ok () { r with buffer := b, body := rest }
      | none => .fatal .appendAfterEos

/-- After-loop tail of source `Receiver::next_message`: once the stream has
ended, leftover buffered bytes are a truncated frame (`UnexpectedEndOfStream`
carrying the remaining bytes, which `RawMessage::from` drains); otherwise the
stream ended cleanly. -/
def nmEnd (buffer : RecvBuf) (body : List BodyItem) :
    Step (SdkError E) (RecvBuf × List BodyItem) (Option Message) :=
  if buffer.has_data then
    match buffer.buffered with
    | some data =>
        .fail (.responseError .unexpectedEndOfStream (.invalid (some data)))
          (.ended [], body)
    | none => .fatal .bufferEmptyRead
  else .ok none (buffer, body)

/-- One iteration of the `next_message` loop when the body is exhausted:
if the stream has not ended, a decode attempt is made on the buffered bytes;
on `incomplete` (or no data) the pull finds no chunk and marks end of stream,
after which the loop condition fails and control reaches `nmEnd`. -/
def nmLast (dec : ByteSeq → DecodedFrame) (buffer : RecvBuf) :
    Step (SdkError E) (RecvBuf × List BodyItem) (Option Message) :=
  if buffer.is_eos then nmEnd buffer []
  else if buffer.has_data then
    match buffer.buffered with
    | none => .fatal .bufferEmptyRead
    | some data =>
      match dec data with
      | .complete message rest => .ok (some message) (.buffering rest, [])
      | .decodeFailure err rest =>
          .fail (.responseError (.eventStream err) (.invalid none))
            (.buffering rest, [])
      | .incomplete =>
        match buffer.markEnded with
        | some b => nmEnd b []
        | none => .fatal .alreadyEnded
  else
    match buffer.markEnded with
    | some b => nmEnd b []
    | none => .fatal .alreadyEnded

/-- Verdict of one `next_message` loop iteration that has a pending body
item: either the loop is done with a `Step`, or it continues with an updated
buffer after consuming the item. -/
inductive HeadOut (E : Type)
  | done (s : Step (SdkError E) (RecvBuf × List BodyItem) (Option Message))
  | again (b : RecvBuf)

/-- The pull of `buffer_next_chunk` inside the loop, consuming the pending
body item: a source error is a `DispatchFailure`, a chunk is appended to the
buffer and the loop continues. -/
def pullItem (buffer : RecvBuf) (item : BodyItem) (rest : List BodyItem) :
    HeadOut E :=
  match item with
  | .error e => .done (.fail (.dispatchFailure (.io e)) (buffer, rest))
  | .ok chunk =>
    match buffer.appendChunk chunk with
    | some b => .again b
    | none => .done (.fatal .appendAfterEos)

/-- One iteration of the `next_message` loop with a pending body item:
loop exit on end of stream, otherwise a decode attempt on the buffered bytes,
falling through to the pull on `incomplete` or when nothing is buffered. -/
def nmHead (dec : ByteSeq → DecodedFrame) (buffer : RecvBuf) (item : BodyItem)
    (rest : List BodyItem) : HeadOut E :=
  if buffer.is_eos then .done (nmEnd buffer (item :: rest))
  else if buffer.has_data then
    match buffer.buffered with
    | none => .done (.fatal .bufferEmptyRead)
    | some data =>
      match dec data with
      | .complete message r2 => .done (.ok (some message) (.buffering r2, item :: rest))
      | .decodeFailure err r2 =>
          .done (.fail (.responseError (.eventStream err) (.invalid none))
            (.buffering r2, item :: rest))
      | .incomplete => pullItem buffer item rest
  else pullItem buffer item rest

/-- Loop of source `Receiver::next_message`, with the two mutated fields
(`buffer`, `body`) as explicit state: while the stream has not ended, try to
decode a frame from the already-buffered bytes, otherwise pull the next chunk
and retry.  Recursion is on the list of pending body items. -/
def nmGo (dec : ByteSeq → DecodedFrame) :
    RecvBuf → List BodyItem →
    Step (SdkError E) (RecvBuf × List BodyItem) (Option Message)
  | buffer, [] => nmLast dec buffer
  | buffer, item :: rest =>
    match nmHead dec buffer item rest with
    | .done s => s
    | .again b => nmGo dec b rest

/-- Source `Receiver::next_message`: run the pull-decode loop over the
receiver's buffer and body. -/
def Receiver.next_message (r : Receiver T E) :
    Step (SdkError E) (Receiver T E) (Option Message) :=
  match nmGo r.decode_frame r.buffer r.body with
  | .ok v (buf, bd) => .ok v { r with buffer := buf, body := bd }
  | .fail e (buf, bd) => .fail e { r with buffer := buf, body := bd }
  | .fatal k => .fatal k

/-- Source `Receiver::try_recv_initial`: pull one frame; if it carries an
`:event-type` header whose string value is `initial-response`, return it;
if it carries such a header with any other value, drop it and return `none`;
if it carries no `:event-type` header, store it in `buffered_message` and
return `none`. -/
def Receiver.try_recv_initial (r : Receiver T E) :
    Step (SdkError E) (Receiver T E) (Option Message) :=
  match r.next_message with
  | .ok (some message) r2 =>
    match message.headers.find? (fun h => h.name == ":event-type") with
    | some event_type =>
      if (event_type.value.as_string.map
            (fun s => s == "initial-response")).getD false then
        .ok (some message) r2
      else
        .ok none r2
    | none => .ok none { r2 with buffered_message := some message }
  | .ok none r2 => .ok none r2
  | .fail e r2 => .fail e r2
  | .fatal k => .fatal k

/-- Source `Receiver::recv`: return the buffered (peeked) message first if
one is pending, otherwise pull the next frame; a decoded frame is handed to
the unmarshaller, a clean end of stream yields `none`. -/
def Receiver.recv (r : Receiver T E) :
    Step (SdkError E) (Receiver T E) (Option T) :=
  match r.buffered_message with
  | some buffered =>
    Step.liftE { r with buffered_message := none }
      (({ r with buffered_message := none } : Receiver T E).unmarshall buffered)
  | none =>
    match r.next_message with
    | .ok (some message) r2 => Step.liftE r2 (r2.unmarshall message)
    | .ok none r2 => .ok none r2
    | .fail e r2 => .fail e r2
    | .fatal k => .fatal k

/-- Observation of one `recv` call (the outcome without the receiver state). -/
inductive RecvOut (E T : Type)
  | ok (v : Option T)
  | fail (e : SdkError E)
  | fatal (kind : FatalKind)
  deriving DecidableEq, Repr

/-- Repeated calls to `recv`: the list of the first `n` observations (a
`fatal` outcome has no successor state and stops the list). -/
def recvList : Receiver T E → Nat → List (RecvOut E T)
  | _, 0 => []
  | r, n + 1 =>
    match r.recv with
    | .ok v r2 => .ok v :: recvList r2 n
    | .fail e r2 => .fail e :: recvList r2 n
    | .fatal k => [.fatal k]

/-- State observation: the `buffered_message` field of the receiver a step
landed in (`none` when the step was fatal). -/
def Step.stateBuffered {ε α : Type} :
    Step ε (Receiver T E) α → Option (Option Message)
  | .ok _ s => some s.buffered_message
  | .fail _ s => some s.buffered_message
  | .fatal _ => none

/-- State observation: the `body` field of the receiver a step landed in. -/
def Step.stateBody {ε α : Type} :
    Step ε (Receiver T E) α → Option (List BodyItem)
  | .ok _ s => some s.body
  | .fail _ s => some s.body
  | .fatal _ => none

/-- Value observation of a non-fatal successful step. -/
def Step.value? {ε σ α : Type} : Step ε σ α → Option α
  | .ok v _ => some v
  | _ => none

/-! ### Step lemmas for the pull-decode loop -/

theorem RecvBuf.appendChunk_of_not_eos {b : RecvBuf} (hb : b.is_eos = false)
    (c : ByteSeq) : b.appendChunk c = some (.buffering (b.bytes ++ c)) := by
  cases b <;> simp_all

theorem RecvBuf.markEnded_of_not_eos {b : RecvBuf} (hb : b.is_eos = false) :
    b.markEnded = some (.ended b.bytes) := by
  cases b <;> simp_all

theorem RecvBuf.has_data_of_ne {d : ByteSeq} (h : d ≠ []) :
    (RecvBuf.buffering d).has_data = true := by
  cases d with
  | nil => exact absurd rfl h
  | cons b bs => rfl

theorem RecvBuf.bytes_nil_of_no_data {b : RecvBuf} (h : b.has_data = false) :
    b.bytes = [] := by
  cases b with
  | empty => rfl
  | buffering d => cases d with
    | nil => rfl
    | cons x xs => simp [RecvBuf.has_data] at h
  | ended d => cases d with
    | nil => rfl
    | cons x xs => simp [RecvBuf.has_data] at h

theorem nmEnd_data {d : ByteSeq} (hd : d ≠ []) (body : List BodyItem) :
    nmEnd (E := E) (.ended d) body =
      .fail (.responseError .unexpectedEndOfStream (.invalid (some d)))
        (.ended [], body) := by
  obtain ⟨x, xs, rfl⟩ := List.exists_cons_of_ne_nil hd
  rfl

theorem nmEnd_no_data (body : List BodyItem) :
    nmEnd (E := E) (.ended []) body = .ok none (.ended [], body) := rfl

theorem nmGo_eos (dec : ByteSeq → DecodedFrame) (d : ByteSeq)
    (body : List BodyItem) :
    nmGo (E := E) dec (.ended d) body = nmEnd (.ended d) body := by
  cases body with
  | nil => simp [nmGo, nmLast]
  | cons item rest => simp [nmGo, nmHead]

theorem nmGo_complete_step {dec : ByteSeq → DecodedFrame} {d rest : ByteSeq}
    {m : Message} (hd : d ≠ []) (hdec : dec d = .complete m rest)
    (body : List BodyItem) :
    nmGo (E := E) dec (.buffering d) body = .ok (some m) (.buffering rest, body) := by
  obtain ⟨x, xs, rfl⟩ := List.exists_cons_of_ne_nil hd
  cases body with
  | nil => simp [nmGo, nmLast, RecvBuf.has_data, hdec]
  | cons item rest2 => simp [nmGo, nmHead, RecvBuf.has_data, hdec]

theorem nmGo_failure_step {dec : ByteSeq → DecodedFrame} {d rest : ByteSeq}
    {e : EventStreamError} (hd : d ≠ []) (hdec : dec d = .decodeFailure e rest)
    (body : List BodyItem) :
    nmGo (E := E) dec (.buffering d) body =
      .fail (.responseError (.eventStream e) (.invalid none))
        (.buffering rest, body) := by
  obtain ⟨x, xs, rfl⟩ := List.exists_cons_of_ne_nil hd
  cases body with
  | nil => simp [nmGo, nmLast, RecvBuf.has_data, hdec]
  | cons item rest2 => simp [nmGo, nmHead, RecvBuf.has_data, hdec]

/-- A buffer is stalled when the stream has not ended and the decoder cannot
extract a complete frame from what is buffered (no data, or `incomplete`). -/
def Stalled (dec : ByteSeq → DecodedFrame) (buffer : RecvBuf) : Prop :=
  buffer.is_eos = false ∧
    (buffer.has_data = true → dec buffer.bytes = .incomplete)

theorem nmGo_stalled_nil {dec : ByteSeq → DecodedFrame} {buffer : RecvBuf}
    (h : Stalled dec buffer) :
    nmGo (E := E) dec buffer [] = nmEnd (.ended buffer.bytes) [] := by
  obtain ⟨h1, h2⟩ := h
  cases buffer with
  | empty => simp [nmGo, nmLast]
  | ended d => simp at h1
  | buffering d =>
    cases d with
    | nil => simp [nmGo, nmLast, RecvBuf.has_data]
    | cons x xs =>
      have hinc : dec (x :: xs) = .incomplete := h2 (by rfl)
      simp [nmGo, nmLast, RecvBuf.has_data, hinc]

theorem nmGo_stalled_ok {dec : ByteSeq → DecodedFrame} {buffer : RecvBuf}
    (h : Stalled dec buffer) (c : ByteSeq) (body : List BodyItem) :
    nmGo (E := E) dec buffer (.ok c :: body) =
      nmGo dec (.buffering (buffer.bytes ++ c)) body := by
  obtain ⟨h1, h2⟩ := h
  cases buffer with
  | empty => simp [nmGo, nmHead, pullItem]
  | ended d => simp at h1
  | buffering d =>
    cases d with
    | nil => simp [nmGo, nmHead, pullItem, RecvBuf.has_data]
    | cons x xs =>
      have hinc : dec (x :: xs) = .incomplete := h2 (by rfl)
      simp [nmGo, nmHead, pullItem, RecvBuf.has_data, hinc]

theorem RecvBuf.bytes_ne_of_has_data {b : RecvBuf} (h : b.has_data = true) :
    b.bytes ≠ [] := by
  cases b with
  | empty => simp [RecvBuf.has_data] at h
  | buffering d => cases d <;> simp_all [RecvBuf.has_data]
  | ended d => cases d <;> simp_all [RecvBuf.has_data]

theorem RecvBuf.eq_buffering_of {b : RecvBuf} (h1 : b.is_eos = false)
    (h2 : b.bytes ≠ []) : b = .buffering b.bytes := by
  cases b <;> simp_all

theorem nmGo_stalled_error {dec : ByteSeq → DecodedFrame} {buffer : RecvBuf}
    (h : Stalled dec buffer) (e : Nat) (body : List BodyItem) :
    nmGo (E := E) dec buffer (.error e :: body) =
      .fail (.dispatchFailure (.io e)) (buffer, body) := by
  obtain ⟨h1, h2⟩ := h
  cases buffer with
  | empty => simp [nmGo, nmHead, pullItem]
  | ended d => simp at h1
  | buffering d =>
    cases d with
    | nil => simp [nmGo, nmHead, pullItem, RecvBuf.has_data]
    | cons x xs =>
      have hinc : dec (x :: xs) = .incomplete := h2 (by rfl)
      simp [nmGo, nmHead, pullItem, RecvBuf.has_data, hinc]

/-! ### Behaviour of the loop under the spec's Frame Decoder contract -/

/-- Modelled from the spec (§6 Frame Decoder contract, the decoder itself is
`aws-smithy-eventstream`, not under src/): relative to an encoding `enc`, the
decoder extracts a complete frame exactly when the frame's whole encoding is
buffered, consuming exactly those bytes, and reports `incomplete` (consuming
nothing) on a proper non-empty front part of an encoding.  Required only for
the frames `fs` actually streamed. -/
def DecodesAll (dec : ByteSeq → DecodedFrame) (enc : Message → ByteSeq)
    (fs : List Message) : Prop :=
  (∀ f ∈ fs, enc f ≠ []) ∧
  (∀ f ∈ fs, ∀ rest, dec (enc f ++ rest) = .complete f rest) ∧
  (∀ f ∈ fs, ∀ p q, p ++ q = enc f → p ≠ [] → q ≠ [] → dec p = .incomplete)

theorem DecodesAll.tail {dec : ByteSeq → DecodedFrame} {enc : Message → ByteSeq}
    {f : Message} {fs : List Message} (h : DecodesAll dec enc (f :: fs)) :
    DecodesAll dec enc fs := by
  obtain ⟨h1, h2, h3⟩ := h
  exact ⟨fun g hg => h1 g (List.mem_cons_of_mem f hg),
    fun g hg => h2 g (List.mem_cons_of_mem f hg),
    fun g hg => h3 g (List.mem_cons_of_mem f hg)⟩

/-- Core loop invariant: if the unconsumed input (buffered bytes followed by
the chunks the body will deliver) starts with the complete encoding of frame
`f`, the loop returns `f`, consuming exactly the encoding's bytes and pulling
no chunk beyond what is needed. -/
theorem nmGo_complete {dec : ByteSeq → DecodedFrame} {f : Message}
    {encf : ByteSeq} (hne : encf ≠ [])
    (hcomp : ∀ rest, dec (encf ++ rest) = .complete f rest)
    (hinc : ∀ p q, p ++ q = encf → p ≠ [] → q ≠ [] → dec p = .incomplete) :
    ∀ (chunks : List ByteSeq) (buffer : RecvBuf) (buf tail : ByteSeq)
      (restBody : List BodyItem),
      buffer.is_eos = false → buffer.bytes = buf →
      buf ++ chunks.flatten = encf ++ tail →
      ∃ (rest : ByteSeq) (chunks2 : List ByteSeq),
        nmGo (E := E) dec buffer (chunks.map Except.ok ++ restBody) =
          .ok (some f) (.buffering rest, chunks2.map Except.ok ++ restBody) ∧
        rest ++ chunks2.flatten = tail := by
  intro chunks
  induction chunks with
  | nil =>
    intro buffer buf tail restBody hEos hBytes hInv
    simp only [List.flatten_nil, List.append_nil] at hInv
    subst hInv
    have hbne : encf ++ tail ≠ [] := fun hb => hne (List.append_eq_nil.mp hb).1
    have hbuffer : buffer = .buffering (encf ++ tail) := by
      rw [← hBytes]
      exact RecvBuf.eq_buffering_of hEos (by rw [hBytes]; exact hbne)
    refine ⟨tail, [], ?_, by simp⟩
    rw [hbuffer]
    simpa using nmGo_complete_step (E := E) hbne (hcomp tail) restBody
  | cons c cs ih =>
    intro buffer buf tail restBody hEos hBytes hInv
    rcases List.append_eq_append_iff.mp hInv with ⟨q, hq1, hq2⟩ | ⟨p, hp1, hp2⟩
    · by_cases hq : q = []
      · subst hq
        rw [List.append_nil] at hq1
        have hbne : buf ≠ [] := by rw [← hq1]; exact hne
        have hbuffer : buffer = .buffering buf := by
          rw [← hBytes]
          exact RecvBuf.eq_buffering_of hEos (by rw [hBytes]; exact hbne)
        have hdec : dec buf = .complete f [] := by
          rw [← hq1]
          simpa using hcomp []
        refine ⟨[], c :: cs, ?_, by simpa using hq2⟩
        rw [hbuffer]
        exact nmGo_complete_step hbne hdec _
      · have hstall : Stalled dec buffer := by
          refine ⟨hEos, fun hd => ?_⟩
          rw [hBytes]
          have hbne : buf ≠ [] := by
            rw [← hBytes]
            exact RecvBuf.bytes_ne_of_has_data hd
          exact hinc buf q hq1.symm hbne hq
        have hInv2 : (buf ++ c) ++ cs.flatten = encf ++ tail := by
          simpa [List.flatten_cons, List.append_assoc] using hInv
        obtain ⟨rest, chunks2, heq, hres⟩ :=
          ih (.buffering (buf ++ c)) (buf ++ c) tail restBody rfl rfl hInv2
        refine ⟨rest, chunks2, ?_, hres⟩
        have hstep := nmGo_stalled_ok (E := E) hstall c (cs.map Except.ok ++ restBody)
        rw [hBytes] at hstep
        simpa [hstep] using heq
    · have hbne : buf ≠ [] := by
        rw [hp1]
        exact fun hb => hne (List.append_eq_nil.mp hb).1
      have hbuffer : buffer = .buffering buf := by
        rw [← hBytes]
        exact RecvBuf.eq_buffering_of hEos (by rw [hBytes]; exact hbne)
      refine ⟨p, c :: cs, ?_, hp2.symm⟩
      rw [hbuffer, hp1]
      exact nmGo_complete_step (by rw [← hp1]; exact hbne) (hcomp p) _

/-- Draining only empty chunks with an empty buffer reaches the clean end of
stream. -/
theorem nmGo_drain_none {dec : ByteSeq → DecodedFrame} :
    ∀ (chunks : List ByteSeq), (∀ c ∈ chunks, c = []) →
    ∀ (buffer : RecvBuf), buffer.is_eos = false → buffer.bytes = [] →
    nmGo (E := E) dec buffer (chunks.map Except.ok) = .ok none (.ended [], []) := by
  intro chunks
  induction chunks with
  | nil =>
    intro _ buffer hEos hBytes
    have hstall : Stalled dec buffer :=
      ⟨hEos, fun hd => absurd hBytes (RecvBuf.bytes_ne_of_has_data hd)⟩
    rw [List.map_nil, nmGo_stalled_nil hstall, hBytes]
    exact nmEnd_no_data []
  | cons c cs ih =>
    intro hall buffer hEos hBytes
    have hc : c = [] := hall c (List.mem_cons_self c cs)
    subst hc
    have hstall : Stalled dec buffer :=
      ⟨hEos, fun hd => absurd hBytes (RecvBuf.bytes_ne_of_has_data hd)⟩
    rw [List.map_cons]
    have hstep := nmGo_stalled_ok (E := E) hstall [] (cs.map Except.ok)
    rw [hBytes] at hstep
    rw [hstep]
    exact ih (fun x hx => hall x (List.mem_cons_of_mem _ hx)) _ rfl rfl

/-- Draining only empty chunks with an empty buffer and then hitting a chunk
source error surfaces the transport failure. -/
theorem nmGo_drain_error {dec : ByteSeq → DecodedFrame} :
    ∀ (chunks : List ByteSeq), (∀ c ∈ chunks, c = []) →
    ∀ (buffer : RecvBuf) (e : Nat) (restBody : List BodyItem),
    buffer.is_eos = false → buffer.bytes = [] →
    ∃ b2, nmGo (E := E) dec buffer
        (chunks.map Except.ok ++ (.error e :: restBody)) =
      .fail (.dispatchFailure (.io e)) (b2, restBody) := by
  intro chunks
  induction chunks with
  | nil =>
    intro _ buffer e restBody hEos hBytes
    have hstall : Stalled dec buffer :=
      ⟨hEos, fun hd => absurd hBytes (RecvBuf.bytes_ne_of_has_data hd)⟩
    exact ⟨buffer, by simpa using nmGo_stalled_error hstall e restBody⟩
  | cons c cs ih =>
    intro hall buffer e restBody hEos hBytes
    have hc : c = [] := hall c (List.mem_cons_self c cs)
    subst hc
    have hstall : Stalled dec buffer :=
      ⟨hEos, fun hd => absurd hBytes (RecvBuf.bytes_ne_of_has_data hd)⟩
    have hstep := nmGo_stalled_ok (E := E) hstall []
      (cs.map Except.ok ++ (.error e :: restBody))
    rw [hBytes] at hstep
    obtain ⟨b2, hb2⟩ :=
      ih (fun x hx => hall x (List.mem_cons_of_mem _ hx)) (.buffering []) e restBody rfl rfl
    refine ⟨b2, ?_⟩
    simp only [List.map_cons, List.cons_append]
    rw [hstep]
    exact hb2

/-- If the decoder keeps reporting `incomplete` on every accumulated buffer
and the stream ends with bytes left over, the loop fails with
`UnexpectedEndOfStream` carrying exactly the leftover bytes. -/
theorem nmGo_truncation {dec : ByteSeq → DecodedFrame} :
    ∀ (chunks : List ByteSeq) (buffer : RecvBuf) (buf : ByteSeq),
    buffer.is_eos = false → buffer.bytes = buf →
    (∀ i, i < chunks.length + 1 → buf ++ (chunks.take i).flatten ≠ [] →
      dec (buf ++ (chunks.take i).flatten) = .incomplete) →
    buf ++ chunks.flatten ≠ [] →
    nmGo (E := E) dec buffer (chunks.map Except.ok) =
      .fail (.responseError .unexpectedEndOfStream
          (.invalid (some (buf ++ chunks.flatten))))
        (.ended [], []) := by
  intro chunks
  induction chunks with
  | nil =>
    intro buffer buf hEos hBytes hstall hne
    simp only [List.flatten_nil, List.append_nil] at hne ⊢
    have hst : Stalled dec buffer := by
      refine ⟨hEos, fun hd => ?_⟩
      rw [hBytes]
      simpa using hstall 0 (by omega) (by simpa using hne)
    rw [List.map_nil, nmGo_stalled_nil hst, hBytes]
    exact nmEnd_data hne []
  | cons c cs ih =>
    intro buffer buf hEos hBytes hstall hne
    have hst : Stalled dec buffer := by
      refine ⟨hEos, fun hd => ?_⟩
      rw [hBytes]
      have hbne : buf ≠ [] := by
        rw [← hBytes]
        exact RecvBuf.bytes_ne_of_has_data hd
      simpa using hstall 0 (by omega) (by simpa using hbne)
    rw [List.map_cons]
    have hstep := nmGo_stalled_ok (E := E) hst c (cs.map Except.ok)
    rw [hBytes] at hstep
    rw [hstep]
    have hstall2 : ∀ i, i < cs.length + 1 →
        (buf ++ c) ++ (cs.take i).flatten ≠ [] →
        dec ((buf ++ c) ++ (cs.take i).flatten) = .incomplete := by
      intro i hi hne2
      have := hstall (i + 1) (by simpa using Nat.succ_lt_succ hi)
        (by simpa [List.take_succ_cons, List.append_assoc] using hne2)
      simpa [List.take_succ_cons, List.append_assoc] using this
    have hne2 : (buf ++ c) ++ cs.flatten ≠ [] := by
      simpa [List.flatten_cons, List.append_assoc] using hne
    have := ih (.buffering (buf ++ c)) (buf ++ c) rfl rfl hstall2 hne2
    rw [this]
    simp [List.flatten_cons, List.append_assoc]

/-! ### Inversion: clean end of stream, and absence of panics -/

theorem nmEnd_ok_none_inv {buffer : RecvBuf} {body : List BodyItem}
    {b2 : RecvBuf} {bd2 : List BodyItem}
    (h : nmEnd (E := E) buffer body = .ok none (b2, bd2)) :
    b2 = buffer ∧ buffer.has_data = false ∧ bd2 = body := by
  unfold nmEnd at h
  split at h
  · split at h <;> simp_all
  · next hd =>
    simp only [Step.ok.injEq, Prod.mk.injEq] at h
    exact ⟨h.2.1.symm, by simpa using hd, h.2.2.symm⟩

theorem eq_ended_of_is_eos {b : RecvBuf} (h : b.is_eos = true) :
    b = .ended b.bytes := by
  cases b <;> simp_all

theorem nmEnd_ended_inv {buffer : RecvBuf} {body : List BodyItem}
    {b2 : RecvBuf} {bd2 : List BodyItem} (hEos : buffer.is_eos = true)
    (h : nmEnd (E := E) buffer body = .ok none (b2, bd2)) : b2 = .ended [] := by
  obtain ⟨rfl, hnd, -⟩ := nmEnd_ok_none_inv h
  rw [eq_ended_of_is_eos hEos, RecvBuf.bytes_nil_of_no_data hnd]

theorem nmGo_ok_none_inv {dec : ByteSeq → DecodedFrame} :
    ∀ (body : List BodyItem) (buffer : RecvBuf) {b2 : RecvBuf}
      {bd2 : List BodyItem},
    nmGo (E := E) dec buffer body = .ok none (b2, bd2) → b2 = .ended [] := by
  intro body
  induction body with
  | nil =>
    intro buffer b2 bd2 h
    simp only [nmGo] at h
    unfold nmLast at h
    split at h
    · next hEos => exact nmEnd_ended_inv hEos h
    · next hEos =>
      have hEos2 : buffer.is_eos = false := by simpa using hEos
      split at h
      · split at h
        · simp_all
        · split at h
          · simp_all
          · simp_all
          · split at h
            · next b hme =>
              rw [RecvBuf.markEnded_of_not_eos hEos2] at hme
              cases hme
              exact nmEnd_ended_inv (by simp) h
            · next hme =>
              rw [RecvBuf.markEnded_of_not_eos hEos2] at hme
              cases hme
      · split at h
        · next b hme =>
          rw [RecvBuf.markEnded_of_not_eos hEos2] at hme
          cases hme
          exact nmEnd_ended_inv (by simp) h
        · next hme =>
          rw [RecvBuf.markEnded_of_not_eos hEos2] at hme
          cases hme
  | cons item rest ih =>
    intro buffer b2 bd2 h
    simp only [nmGo] at h
    split at h
    · next s heq =>
      unfold nmHead at heq
      split at heq
      · next hEos =>
        cases heq
        exact nmEnd_ended_inv hEos h
      · next hEos =>
        have hEos2 : buffer.is_eos = false := by simpa using hEos
        split at heq
        · split at heq
          · simp_all
          · split at heq
            · cases heq; simp_all
            · cases heq; simp_all
            · unfold pullItem at heq
              split at heq
              · cases heq; simp_all
              · split at heq
                · cases heq
                · cases heq; simp_all
        · unfold pullItem at heq
          split at heq
          · cases heq; simp_all
          · split at heq
            · cases heq
            · cases heq; simp_all
    · next b heq => exact ih b h

theorem nmEnd_no_fatal {buffer : RecvBuf} {body : List BodyItem}
    {k : FatalKind} : nmEnd (E := E) buffer body ≠ .fatal k := by
  unfold nmEnd
  split
  · next hd =>
    split
    · simp
    · next hb => cases buffer <;> simp_all
  · simp

theorem nmGo_no_fatal {dec : ByteSeq → DecodedFrame} :
    ∀ (body : List BodyItem) (buffer : RecvBuf) (k : FatalKind),
    nmGo (E := E) dec buffer body ≠ .fatal k := by
  intro body
  induction body with
  | nil =>
    intro buffer k
    simp only [nmGo]
    unfold nmLast
    split
    · exact nmEnd_no_fatal
    · next hEos =>
      have hEos2 : buffer.is_eos = false := by simpa using hEos
      split
      · next hd =>
        split
        · next hb => cases buffer <;> simp_all
        · split
          · simp
          · simp
          · split
            · exact nmEnd_no_fatal
            · next hme =>
              rw [RecvBuf.markEnded_of_not_eos hEos2] at hme
              cases hme
      · split
        · exact nmEnd_no_fatal
        · next hme =>
          rw [RecvBuf.markEnded_of_not_eos hEos2] at hme
          cases hme
  | cons item rest ih =>
    intro buffer k
    simp only [nmGo]
    split
    · next s heq =>
      unfold nmHead at heq
      split at heq
      · cases heq; exact nmEnd_no_fatal
      · next hEos =>
        have hEos2 : buffer.is_eos = false := by simpa using hEos
        split at heq
        · next hd =>
          split at heq
          · next hb => cases buffer <;> simp_all
          · split at heq
            · cases heq; simp
            · cases heq; simp
            · unfold pullItem at heq
              split at heq
              · cases heq; simp
              · split at heq
                · cases heq
                · next hac =>
                  rw [RecvBuf.appendChunk_of_not_eos hEos2] at hac
                  cases hac
        · unfold pullItem at heq
          split at heq
          · cases heq; simp
          · split at heq
            · cases heq
            · next hac =>
              rw [RecvBuf.appendChunk_of_not_eos hEos2] at hac
              cases hac
    · next b heq => exact ih b k

/-! ### Receiver-level lemmas -/

theorem next_message_of_nmGo {r : Receiver T E} {v : Option Message}
    {buf : RecvBuf} {bd : List BodyItem}
    (h : nmGo (E := E) r.decode_frame r.buffer r.body = .ok v (buf, bd)) :
    r.next_message = .ok v { r with buffer := buf, body := bd } := by
  unfold Receiver.next_message
  rw [h]

theorem next_message_of_nmGo_fail {r : Receiver T E} {e : SdkError E}
    {buf : RecvBuf} {bd : List BodyItem}
    (h : nmGo (E := E) r.decode_frame r.buffer r.body = .fail e (buf, bd)) :
    r.next_message = .fail e { r with buffer := buf, body := bd } := by
  unfold Receiver.next_message
  rw [h]

theorem recv_of_next_message_some {r r2 : Receiver T E} {m : Message}
    (hmsg : r.buffered_message = none) (h : r.next_message = .ok (some m) r2) :
    r.recv = Step.liftE r2 (r2.unmarshall m) := by
  unfold Receiver.recv
  rw [hmsg, h]

theorem recv_of_next_message_none {r r2 : Receiver T E}
    (hmsg : r.buffered_message = none) (h : r.next_message = .ok none r2) :
    r.recv = .ok none r2 := by
  unfold Receiver.recv
  rw [hmsg, h]

theorem recv_of_next_message_fail {r r2 : Receiver T E} {e : SdkError E}
    (hmsg : r.buffered_message = none) (h : r.next_message = .fail e r2) :
    r.recv = .fail e r2 := by
  unfold Receiver.recv
  rw [hmsg, h]

/-- The observation `recv` produces for a frame, determined by the
unmarshaller alone (spec §4.4 step 3). -/
def outOf (u : Message → Except EventStreamError (UnmarshalledMessage T E))
    (f : Message) : RecvOut E T :=
  match u f with
  | .ok (.event t) => .ok (some t)
  | .ok (.error e) => .fail (.serviceError e (.decoded f))
  | .error err => .fail (.responseError (.eventStream err) (.decoded f))

theorem recvList_cons_of_recv_liftE {r r2 : Receiver T E} {m : Message} {n : Nat}
    (h : r.recv = Step.liftE r2 (r2.unmarshall m))
    (hu : r2.unmarshaller = r.unmarshaller) :
    recvList r (n + 1) = outOf r.unmarshaller m :: recvList r2 n := by
  simp only [recvList, h]
  rw [← hu]
  unfold Receiver.unmarshall outOf
  rcases hc : r2.unmarshaller m with err | um
  · simp [Step.liftE]
  · cases um <;> simp [Step.liftE]

theorem map_outOf_of_forall₂
    {u : Message → Except EventStreamError (UnmarshalledMessage T E)}
    {fs : List Message} {ts : List T}
    (h : List.Forall₂ (fun f t => u f = .ok (.event t)) fs ts) :
    fs.map (outOf u) = ts.map (fun t => RecvOut.ok (E := E) (some t)) := by
  induction h with
  | nil => rfl
  | cons hrel _ ih => simp [outOf, hrel, ih]

/-- Full run: while the unconsumed input is exactly the contiguous encoding
of the frames `fs`, repeated `recv` calls produce the unmarshalled outcome of
each frame in order and then the clean end of stream. -/
theorem recvList_run {enc : Message → ByteSeq} :
    ∀ (fs : List Message) (chunks : List ByteSeq) (r : Receiver T E),
    DecodesAll r.decode_frame enc fs →
    r.buffer.is_eos = false →
    r.buffered_message = none →
    r.body = chunks.map Except.ok →
    r.buffer.bytes ++ chunks.flatten = (fs.map enc).flatten →
    recvList r (fs.length + 1) = fs.map (outOf r.unmarshaller) ++ [.ok none] := by
  intro fs
  induction fs with
  | nil =>
    intro chunks r Hd hEos hmsg hbody hsplit
    simp only [List.map_nil, List.flatten_nil] at hsplit
    have hb : r.buffer.bytes = [] := (List.append_eq_nil.mp hsplit).1
    have hall : ∀ c ∈ chunks, c = [] :=
      List.flatten_eq_nil_iff.mp (List.append_eq_nil.mp hsplit).2
    have hnm : r.next_message = .ok none { r with buffer := .ended [], body := [] } :=
      next_message_of_nmGo
        (by rw [hbody]; exact nmGo_drain_none chunks hall r.buffer hEos hb)
    simp only [List.length_nil, Nat.zero_add, recvList,
      recv_of_next_message_none hmsg hnm, List.map_nil, List.nil_append]
  | cons f fs ih =>
    intro chunks r Hd hEos hmsg hbody hsplit
    have hne := Hd.1 f (List.mem_cons_self f fs)
    have hcomp := Hd.2.1 f (List.mem_cons_self f fs)
    have hinc := Hd.2.2 f (List.mem_cons_self f fs)
    have hsplit2 : r.buffer.bytes ++ chunks.flatten =
        enc f ++ (fs.map enc).flatten := by simpa using hsplit
    obtain ⟨rest, chunks2, heq, hres⟩ :=
      nmGo_complete (E := E) hne hcomp hinc chunks r.buffer r.buffer.bytes
        ((fs.map enc).flatten) [] hEos rfl hsplit2
    rw [List.append_nil, List.append_nil] at heq
    have hnm := next_message_of_nmGo (r := r) (by rw [hbody]; exact heq)
    have hrecv := recv_of_next_message_some hmsg hnm
    have hrun := ih chunks2
      { r with buffer := .buffering rest, body := chunks2.map Except.ok }
      Hd.tail rfl hmsg rfl (by simpa using hres)
    rw [show (f :: fs).length + 1 = (fs.length + 1) + 1 from rfl,
      recvList_cons_of_recv_liftE hrecv rfl, hrun]
    simp

/-- Full run ending in a transport failure: the frames `fs` are delivered by
the chunks preceding the source error, so the first `fs.length` calls
succeed per frame and the next call surfaces the `DispatchFailure`. -/
theorem recvList_run_fail {enc : Message → ByteSeq} :
    ∀ (fs : List Message) (chunks : List ByteSeq) (r : Receiver T E) (e : Nat)
      (restBody : List BodyItem),
    DecodesAll r.decode_frame enc fs →
    r.buffer.is_eos = false →
    r.buffered_message = none →
    r.body = chunks.map Except.ok ++ (.error e :: restBody) →
    r.buffer.bytes ++ chunks.flatten = (fs.map enc).flatten →
    recvList r (fs.length + 1) =
      fs.map (outOf r.unmarshaller) ++ [.fail (.dispatchFailure (.io e))] := by
  intro fs
  induction fs with
  | nil =>
    intro chunks r e restBody Hd hEos hmsg hbody hsplit
    simp only [List.map_nil, List.flatten_nil] at hsplit
    have hb : r.buffer.bytes = [] := (List.append_eq_nil.mp hsplit).1
    have hall : ∀ c ∈ chunks, c = [] :=
      List.flatten_eq_nil_iff.mp (List.append_eq_nil.mp hsplit).2
    obtain ⟨b2, hb2⟩ := @nmGo_drain_error E r.decode_frame
      chunks hall r.buffer e restBody hEos hb
    have hnm := next_message_of_nmGo_fail (r := r) (by rw [hbody]; exact hb2)
    simp only [List.length_nil, Nat.zero_add, recvList,
      recv_of_next_message_fail hmsg hnm, List.map_nil, List.nil_append]
  | cons f fs ih =>
    intro chunks r e restBody Hd hEos hmsg hbody hsplit
    have hne := Hd.1 f (List.mem_cons_self f fs)
    have hcomp := Hd.2.1 f (List.mem_cons_self f fs)
    have hinc := Hd.2.2 f (List.mem_cons_self f fs)
    have hsplit2 : r.buffer.bytes ++ chunks.flatten =
        enc f ++ (fs.map enc).flatten := by simpa using hsplit
    obtain ⟨rest, chunks2, heq, hres⟩ :=
      nmGo_complete (E := E) hne hcomp hinc chunks r.buffer r.buffer.bytes
        ((fs.map enc).flatten) (.error e :: restBody) hEos rfl hsplit2
    have hnm := next_message_of_nmGo (r := r) (by rw [hbody]; exact heq)
    have hrecv := recv_of_next_message_some hmsg hnm
    have hrun := ih chunks2
      { r with buffer := .buffering rest,
               body := chunks2.map Except.ok ++ (.error e :: restBody) }
      e restBody Hd.tail rfl hmsg rfl (by simpa using hres)
    rw [show (f :: fs).length + 1 = (fs.length + 1) + 1 from rfl,
      recvList_cons_of_recv_liftE hrecv rfl, hrun]
    simp

/-! ### Concrete demo instances of the external collaborators

A toy length-prefixed frame format over headerless frames, used to witness
the theorems at concrete inputs: a frame encodes to its payload length
followed by the payload, and the demo decoder implements exactly the spec's
Frame Decoder contract for that format. -/

def demoEnc (m : Message) : ByteSeq := m.payload.length :: m.payload

def demoDecode : ByteSeq → DecodedFrame
  | [] => .incomplete
  | n :: rest =>
    if n ≤ rest.length then .complete ⟨[], rest.take n⟩ (rest.drop n)
    else .incomplete

def demoUnm : Message → Except EventStreamError (UnmarshalledMessage ByteSeq Nat) :=
  fun m => .ok (.event m.payload)

def msgA : Message := ⟨[], [9, 9]⟩
def msgB : Message := ⟨[], [7]⟩

theorem demoDecodesAll (fs : List Message) (h : ∀ f ∈ fs, f.headers = []) :
    DecodesAll demoDecode demoEnc fs := by
  refine ⟨fun f _ => by simp [demoEnc], fun f hf rest => ?_,
    fun f _ p q hpq hp hq => ?_⟩
  · have hf0 : f = ⟨[], f.payload⟩ := by
      have := h f hf
      cases f
      simp_all
    have hlen : f.payload.length ≤ (f.payload ++ rest).length := by simp
    conv_rhs => rw [hf0]
    simp only [demoEnc, List.cons_append, demoDecode, if_pos hlen,
      List.take_left, List.drop_left]
  · obtain ⟨x, p2, rfl⟩ := List.exists_cons_of_ne_nil hp
    rw [List.cons_append] at hpq
    simp only [demoEnc, List.cons.injEq] at hpq
    obtain ⟨rfl, h2⟩ := hpq
    have hlt : p2.length < f.payload.length := by
      have hql : 0 < q.length := List.length_pos.mpr hq
      have := congrArg List.length h2
      simp only [List.length_append] at this
      omega
    simp only [demoDecode, if_neg (Nat.not_le.mpr hlt)]

/-! ### Claim theorems -/

/-- C1: for every sequence of complete frames encoded contiguously and then
split into arbitrary (even byte-uneven, frame-misaligned) chunk boundaries
delivered by the chunk source, repeated calls to `recv` yield exactly the
original sequence of typed events, in the original order, followed by
`Ok(None)`. -/
theorem exact_redelivery {enc : Message → ByteSeq} (r : Receiver T E)
    (fs : List Message) (ts : List T) (chunks : List ByteSeq)
    (Hd : DecodesAll r.decode_frame enc fs)
    (hbuf : r.buffer = .empty)
    (hmsg : r.buffered_message = none)
    (hbody : r.body = chunks.map Except.ok)
    (hsplit : chunks.flatten = (fs.map enc).flatten)
    (hunm : List.Forall₂ (fun f t => r.unmarshaller f = .ok (.event t)) fs ts) :
    recvList r (fs.length + 1) =
      ts.map (fun t => RecvOut.ok (some t)) ++ [.ok none] := by
  rw [← map_outOf_of_forall₂ hunm]
  exact recvList_run fs chunks r Hd (by rw [hbuf]; rfl) hmsg hbody
    (by rw [hbuf]; simpa using hsplit)

def wr1 : Receiver ByteSeq Nat :=
  ⟨demoUnm, demoDecode, .empty, [.ok [2, 9], .ok [9, 1], .ok [7]], none⟩

/-- C1 witness: two frames (payloads `[9,9]` and `[7]`) encoded contiguously
to `[2,9,9,1,7]` and delivered split mid-frame as `[2,9] [9,1] [7]` are
redelivered in order, then `Ok(None)`. -/
theorem exact_redelivery_witness :
    ([[2, 9], [9, 1], [7]] : List ByteSeq).flatten =
      ([msgA, msgB].map demoEnc).flatten ∧
    recvList wr1 ([msgA, msgB].length + 1) =
      [[9, 9], [7]].map (fun t => RecvOut.ok (some t)) ++ [.ok none] :=
  ⟨by decide,
    exact_redelivery wr1 [msgA, msgB] [[9, 9], [7]] [[2, 9], [9, 1], [7]]
      (demoDecodesAll _ (by decide)) rfl rfl rfl (by decide)
      (List.Forall₂.cons rfl (List.Forall₂.cons rfl List.Forall₂.nil))⟩

def cexMsgNoHeader : Message := ⟨[], [3]⟩
def cexMsgTyped : Message := ⟨[⟨":event-type", .string "foo"⟩], [3]⟩
def cexDecA : ByteSeq → DecodedFrame := fun _ => .complete cexMsgNoHeader []
def cexDecB : ByteSeq → DecodedFrame := fun _ => .complete cexMsgTyped []
def wrA : Receiver ByteSeq Nat := ⟨demoUnm, cexDecA, .buffering [0], [], none⟩
def wrA2 : Receiver ByteSeq Nat := ⟨demoUnm, cexDecA, .buffering [], [], none⟩
def wrB : Receiver ByteSeq Nat := ⟨demoUnm, cexDecB, .buffering [0], [], none⟩
def wrB2 : Receiver ByteSeq Nat := ⟨demoUnm, cexDecB, .buffering [], [], none⟩

/-- C2 counterexample: the claim's two branches are swapped in the code.
`wrA`'s next frame carries no header at all, yet `try_recv_initial` stores it
as the pending peeked frame (the claim says the peek attempt is discarded);
`wrB`'s next frame carries a type header that is not the initial-response
marker, yet the frame is dropped and nothing is stored (the claim says it is
stored as the pending peeked frame). -/
theorem try_recv_initial_branches_cex :
    wrA.try_recv_initial.value? = some none ∧
    wrA.try_recv_initial.stateBuffered = some (some cexMsgNoHeader) ∧
    wrB.try_recv_initial.value? = some none ∧
    wrB.try_recv_initial.stateBuffered = some none := by
  decide

/-- C2 amended: in `try_recv_initial`, after pulling one frame: if the frame
carries no type-identifying header at all, it is stored as the single pending
peeked frame and "not found" is returned; otherwise, if the frame is a
regular typed event (carries a type header that is not the initial-response
marker), the frame is dropped — the peek attempt is discarded without storing
it — and "not found" is returned. -/
theorem try_recv_initial_branches (r r2 : Receiver T E) (m : Message)
    (hnm : r.next_message = .ok (some m) r2) :
    (m.headers.find? (fun h => h.name == ":event-type") = none →
      r.try_recv_initial = .ok none { r2 with buffered_message := some m }) ∧
    (∀ et, m.headers.find? (fun h => h.name == ":event-type") = some et →
      (et.value.as_string.map (fun s => s == "initial-response")).getD false
        = false →
      r.try_recv_initial = .ok none r2) := by
  constructor
  · intro hh
    unfold Receiver.try_recv_initial
    rw [hnm]
    simp [hh]
  · intro et hh hv
    unfold Receiver.try_recv_initial
    rw [hnm]
    simp [hh, hv]

/-- C2 amended-claim witness, at the same two concrete receivers as the
counterexample. -/
theorem try_recv_initial_branches_witness :
    wrA.next_message = .ok (some cexMsgNoHeader) wrA2 ∧
    wrA.try_recv_initial =
      .ok none { wrA2 with buffered_message := some cexMsgNoHeader } ∧
    wrB.next_message = .ok (some cexMsgTyped) wrB2 ∧
    wrB.try_recv_initial = .ok none wrB2 :=
  ⟨rfl,
    (try_recv_initial_branches wrA wrA2 cexMsgNoHeader rfl).1 rfl,
    rfl,
    (try_recv_initial_branches wrB wrB2 cexMsgTyped rfl).2
      ⟨":event-type", .string "foo"⟩ rfl rfl⟩

/-- C3: if a frame is pending in the peeked slot, the very next `recv` call
returns that frame's unmarshalled value, clears the slot (consuming the frame
exactly once), and performs no new frame pull (the pending body is
untouched). -/
theorem recv_peeked_first (r : Receiver T E) (m : Message)
    (hm : r.buffered_message = some m) :
    r.recv = Step.liftE { r with buffered_message := none } (r.unmarshall m) ∧
    r.recv.stateBuffered = some none ∧
    r.recv.stateBody = some r.body := by
  have h1 : r.recv =
      Step.liftE { r with buffered_message := none } (r.unmarshall m) := by
    unfold Receiver.recv
    rw [hm]
    rfl
  refine ⟨h1, ?_, ?_⟩ <;> rw [h1] <;>
    rcases hc : r.unmarshall m with e | v <;>
      simp [Step.liftE, Step.stateBuffered, Step.stateBody]

def wr3 : Receiver ByteSeq Nat :=
  ⟨demoUnm, demoDecode, .empty, [.ok [1, 7]], some msgA⟩

/-- C3 witness: with `msgA` pending, `recv` unmarshalls it, clears the slot
and leaves the body untouched. -/
theorem recv_peeked_first_witness :
    wr3.buffered_message = some msgA ∧
    (wr3.recv = Step.liftE { wr3 with buffered_message := none }
        (wr3.unmarshall msgA) ∧
      wr3.recv.stateBuffered = some none ∧
      wr3.recv.stateBody = some wr3.body) :=
  ⟨rfl, recv_peeked_first wr3 msgA rfl⟩

/-- C4: a stream that signals clean end-of-stream while a partial frame
remains buffered makes the `recv` call that discovers end-of-stream return a
decode-classified `ResponseError` (`UnexpectedEndOfStream`) carrying the
remaining buffered bytes as the raw payload — not `Ok(None)`. -/
theorem truncation_detection (r : Receiver T E) (chunks : List ByteSeq)
    (buf : ByteSeq)
    (hEos : r.buffer.is_eos = false)
    (hBytes : r.buffer.bytes = buf)
    (hmsg : r.buffered_message = none)
    (hbody : r.body = chunks.map Except.ok)
    (hstall : ∀ i, i < chunks.length + 1 → buf ++ (chunks.take i).flatten ≠ [] →
      r.decode_frame (buf ++ (chunks.take i).flatten) = .incomplete)
    (hne : buf ++ chunks.flatten ≠ []) :
    r.recv = .fail (.responseError .unexpectedEndOfStream
        (.invalid (some (buf ++ chunks.flatten))))
      { r with buffer := .ended [], body := [] } := by
  have h := nmGo_truncation (E := E) chunks r.buffer buf hEos hBytes hstall hne
  have hnm := next_message_of_nmGo_fail (r := r) (by rw [hbody]; exact h)
  exact recv_of_next_message_fail hmsg hnm

def wr4 : Receiver ByteSeq Nat :=
  ⟨demoUnm, demoDecode, .empty, [.ok [5, 1], .ok [2]], none⟩

/-- C4 witness: a frame claiming 5 payload bytes is cut off after 2; the call
that discovers end-of-stream fails with the leftover bytes `[5,1,2]`. -/
theorem truncation_detection_witness :
    ([] : ByteSeq) ++ ([[5, 1], [2]] : List ByteSeq).flatten ≠ [] ∧
    wr4.recv = .fail (.responseError .unexpectedEndOfStream
        (.invalid (some ([] ++ ([[5, 1], [2]] : List ByteSeq).flatten))))
      { wr4 with buffer := .ended [], body := [] } :=
  ⟨by decide,
    truncation_detection wr4 [[5, 1], [2]] [] rfl rfl rfl rfl (by decide)
      (by decide)⟩

/-- C5: if the chunk source fails with a transport error after the chunks
delivering `fs.length` valid frames, the next `recv` call returns a
`DispatchFailure` (the error is propagated, with no internal retry), and the
prior successful results are unaffected. -/
theorem transport_error_propagation {enc : Message → ByteSeq}
    (r : Receiver T E) (fs : List Message) (ts : List T)
    (chunks : List ByteSeq) (e : Nat) (restBody : List BodyItem)
    (Hd : DecodesAll r.decode_frame enc fs)
    (hbuf : r.buffer = .empty)
    (hmsg : r.buffered_message = none)
    (hbody : r.body = chunks.map Except.ok ++ (.error e :: restBody))
    (hsplit : chunks.flatten = (fs.map enc).flatten)
    (hunm : List.Forall₂ (fun f t => r.unmarshaller f = .ok (.event t)) fs ts) :
    recvList r (fs.length + 1) =
      ts.map (fun t => RecvOut.ok (some t)) ++
        [.fail (.dispatchFailure (.io e))] := by
  rw [← map_outOf_of_forall₂ hunm]
  exact recvList_run_fail fs chunks r e restBody Hd (by rw [hbuf]; rfl) hmsg
    hbody (by rw [hbuf]; simpa using hsplit)

def wr5 : Receiver ByteSeq Nat :=
  ⟨demoUnm, demoDecode, .empty, [.ok [2, 9, 9], .ok [1, 7], .error 42], none⟩

/-- C5 witness: two frames delivered, then a transport error with code 42;
the third `recv` call surfaces the `DispatchFailure`. -/
theorem transport_error_propagation_witness :
    ([[2, 9, 9], [1, 7]] : List ByteSeq).flatten =
      ([msgA, msgB].map demoEnc).flatten ∧
    recvList wr5 ([msgA, msgB].length + 1) =
      [[9, 9], [7]].map (fun t => RecvOut.ok (some t)) ++
        [.fail (.dispatchFailure (.io 42))] :=
  ⟨by decide,
    transport_error_propagation wr5 [msgA, msgB] [[9, 9], [7]]
      [[2, 9, 9], [1, 7]] 42 [] (demoDecodesAll _ (by decide)) rfl rfl rfl
      (by decide)
      (List.Forall₂.cons rfl (List.Forall₂.cons rfl List.Forall₂.nil))⟩

/-- C6: the unmarshaller's verdict is classified as: event — `Ok(Some …)`;
modeled error — `ServiceError` carrying the typed error and the decoded
frame; unmarshalling failure — `ResponseError` carrying the decoded frame.
A modeled error is not fatal: when the first frame unmarshalls to a modeled
error and the remaining frames to events, the run still retrieves every
remaining frame and ends cleanly. -/
theorem modeled_error_classification {enc : Message → ByteSeq}
    (r : Receiver T E) (f0 : Message) (e0 : E) (fs2 : List Message)
    (ts2 : List T) (chunks : List ByteSeq)
    (Hd : DecodesAll r.decode_frame enc (f0 :: fs2))
    (hbuf : r.buffer = .empty)
    (hmsg : r.buffered_message = none)
    (hbody : r.body = chunks.map Except.ok)
    (hsplit : chunks.flatten = ((f0 :: fs2).map enc).flatten)
    (herr : r.unmarshaller f0 = .ok (.error e0))
    (hunm : List.Forall₂ (fun f t => r.unmarshaller f = .ok (.event t)) fs2 ts2) :
    (∀ (m : Message) (t : T), r.unmarshaller m = .ok (.event t) →
      r.unmarshall m = .ok (some t)) ∧
    (∀ (m : Message) (e : E), r.unmarshaller m = .ok (.error e) →
      r.unmarshall m = .error (.serviceError e (.decoded m))) ∧
    (∀ (m : Message) (err : EventStreamError), r.unmarshaller m = .error err →
      r.unmarshall m = .error (.responseError (.eventStream err) (.decoded m))) ∧
    recvList r (fs2.length + 1 + 1) =
      .fail (.serviceError e0 (.decoded f0)) ::
        (ts2.map (fun t => RecvOut.ok (some t)) ++ [.ok none]) := by
  refine ⟨fun m t h => by simp [Receiver.unmarshall, h],
    fun m e h => by simp [Receiver.unmarshall, h],
    fun m err h => by simp [Receiver.unmarshall, h], ?_⟩
  have hrun := recvList_run (f0 :: fs2) chunks r Hd (by rw [hbuf]; rfl) hmsg
    hbody (by rw [hbuf]; simpa using hsplit)
  rw [show (f0 :: fs2).length + 1 = fs2.length + 1 + 1 from rfl] at hrun
  rw [hrun, List.map_cons, map_outOf_of_forall₂ hunm]
  simp [outOf, herr]

def demoUnmErr : Message → Except EventStreamError (UnmarshalledMessage ByteSeq Nat) :=
  fun m => if m.payload = [9, 9] then .ok (.error 7) else .ok (.event m.payload)

def wr6 : Receiver ByteSeq Nat :=
  ⟨demoUnmErr, demoDecode, .empty, [.ok [2, 9, 9, 1], .ok [7]], none⟩

/-- C6 witness: the first frame unmarshalls to the modeled error `7`; the
second frame is still retrieved afterwards and the stream ends cleanly. -/
theorem modeled_error_classification_witness :
    wr6.unmarshaller msgA = .ok (.error 7) ∧
    recvList wr6 ([msgB].length + 1 + 1) =
      .fail (.serviceError 7 (.decoded msgA)) ::
        ([[7]].map (fun t => RecvOut.ok (some t)) ++ [.ok none]) :=
  ⟨by decide,
    (modeled_error_classification wr6 msgA 7 [msgB] [[7]] [[2, 9, 9, 1], [7]]
      (demoDecodesAll _ (by decide)) rfl rfl rfl (by decide) (by decide)
      (List.Forall₂.cons (by decide) List.Forall₂.nil)).2.2.2⟩

theorem liftE_unmarshall_ne_ok_none {r2 r3 : Receiver T E} {m : Message} :
    Step.liftE r2 (r2.unmarshall m) ≠ .ok none r3 := by
  unfold Receiver.unmarshall
  rcases hc : r2.unmarshaller m with err | um
  · simp [hc, Step.liftE]
  · cases um <;> simp [hc, Step.liftE]

/-- C7: once `recv` returns `Ok(None)`, the receiver is in the drained,
ended state: the next `recv` returns `Ok(None)` with the state unchanged
(hence no chunk is ever pulled again), and every further call repeats it. -/
theorem terminal_idempotent (r r2 : Receiver T E) (h : r.recv = .ok none r2) :
    r2.recv = .ok none r2 ∧
    ∀ n, recvList r2 n = List.replicate n (.ok none) := by
  have hb : r.buffered_message = none := by
    rcases hbm : r.buffered_message with _ | m
    · rfl
    · exfalso
      unfold Receiver.recv at h
      rw [hbm] at h
      exact liftE_unmarshall_ne_ok_none h
  have hnm : r.next_message = .ok none r2 := by
    unfold Receiver.recv at h
    rw [hb] at h
    rcases hn : r.next_message with ⟨v, r3⟩ | ⟨e, r3⟩ | k <;> rw [hn] at h
    · cases v with
      | none =>
        simp only [Step.ok.injEq] at h
        rw [h.2]
      | some m => exact absurd h liftE_unmarshall_ne_ok_none
    · simp at h
    · simp at h
  have hfields : r2.buffer = .ended [] ∧ r2.buffered_message = none := by
    unfold Receiver.next_message at hnm
    rcases hgo : nmGo (E := E) r.decode_frame r.buffer r.body
        with ⟨v, buf, bd⟩ | ⟨e, buf, bd⟩ | k <;> rw [hgo] at hnm
    · simp only [Step.ok.injEq] at hnm
      have hbuf : buf = .ended [] := by
        apply nmGo_ok_none_inv r.body r.buffer
        rw [hgo, hnm.1]
      rw [← hnm.2]
      exact ⟨by rw [hbuf], hb⟩
    · simp at hnm
    · simp at hnm
  have hstep : r2.recv = .ok none r2 := by
    have hgo2 : nmGo (E := E) r2.decode_frame r2.buffer r2.body =
        .ok none (.ended [], r2.body) := by
      rw [hfields.1, nmGo_eos, nmEnd_no_data]
    have hnm2 := next_message_of_nmGo hgo2
    rw [show ({ r2 with buffer := .ended [], body := r2.body } : Receiver T E)
      = r2 by rw [← hfields.1]] at hnm2
    exact recv_of_next_message_none hfields.2 hnm2
  refine ⟨hstep, fun n => ?_⟩
  induction n with
  | zero => rfl
  | succ n ih => simp only [recvList, hstep, ih, List.replicate_succ]

def wr7 : Receiver ByteSeq Nat := ⟨demoUnm, demoDecode, .empty, [], none⟩
def wr7b : Receiver ByteSeq Nat := ⟨demoUnm, demoDecode, .ended [], [], none⟩

/-- C7 witness: an immediately-ended stream; the terminal state repeats
`Ok(None)` forever. -/
theorem terminal_idempotent_witness :
    wr7.recv = .ok none wr7b ∧
    (wr7b.recv = .ok none wr7b ∧
      ∀ n, recvList wr7b n = List.replicate n (.ok none)) :=
  ⟨rfl, terminal_idempotent wr7 wr7b rfl⟩

theorem liftE_ne_fatal {ε σ α : Type} {s : σ} {x : Except ε α} {k : FatalKind} :
    Step.liftE s x ≠ .fatal k := by
  cases x <;> simp [Step.liftE]

theorem next_message_no_fatal (r : Receiver T E) (k : FatalKind) :
    r.next_message ≠ .fatal k := by
  unfold Receiver.next_message
  rcases hgo : nmGo (E := E) r.decode_frame r.buffer r.body
      with ⟨v, buf, bd⟩ | ⟨e, buf, bd⟩ | k2
  · simp
  · simp
  · exact absurd hgo (nmGo_no_fatal _ _ _)

theorem recv_no_fatal (r : Receiver T E) (k : FatalKind) : r.recv ≠ .fatal k := by
  unfold Receiver.recv
  rcases hbm : r.buffered_message with _ | m
  · rcases hn : r.next_message with ⟨v, r2⟩ | ⟨e, r2⟩ | k2
    · cases v with
      | none => simp
      | some m => exact liftE_ne_fatal
    · simp
    · exact absurd hn (next_message_no_fatal r k2)
  · exact liftE_ne_fatal

theorem try_recv_initial_no_fatal (r : Receiver T E) (k : FatalKind) :
    r.try_recv_initial ≠ .fatal k := by
  unfold Receiver.try_recv_initial
  rcases hn : r.next_message with ⟨v, r2⟩ | ⟨e, r2⟩ | k2
  · cases v with
    | none => simp
    | some m =>
      rcases hf : m.headers.find? (fun h => h.name == ":event-type") with _ | et
      · simp [hf]
      · rcases hb2 : (et.value.as_string.map
            (fun s => s == "initial-response")).getD false
        · simp [hf, hb2]
        · simp [hf, hb2]
  · simp
  · exact absurd hn (next_message_no_fatal r k2)

theorem buffer_next_chunk_no_fatal (r : Receiver T E) (k : FatalKind) :
    r.buffer_next_chunk ≠ .fatal k := by
  unfold Receiver.buffer_next_chunk
  split
  · simp
  · next hEos =>
    have hEos2 : r.buffer.is_eos = false := by simpa using hEos
    rcases hb : r.body with _ | ⟨item, rest⟩
    · simp [RecvBuf.markEnded_of_not_eos hEos2]
    · cases item with
      | error e => simp
      | ok chunk => simp [RecvBuf.appendChunk_of_not_eos hEos2]

/-- C8: the Buffer State operations fail fatally exactly on their contract
violations — appending to an Ended buffer, marking an Ended buffer ended
again, and reading the accumulator of an Empty buffer — transitions are
strictly one-directional (append lands in Buffering, mark-ended lands in
Ended), and through the public pull-decode loop (`buffer_next_chunk`, `recv`,
`try_recv_initial`) the fatal branches are unreachable. -/
theorem buffer_state_contract :
    (∀ (b : RecvBuf) (c : ByteSeq), b.appendChunk c = none ↔ b.is_eos = true) ∧
    (∀ b : RecvBuf, b.markEnded = none ↔ b.is_eos = true) ∧
    (∀ b : RecvBuf, b.buffered = none ↔ b = .empty) ∧
    (∀ (b : RecvBuf) (c : ByteSeq) (b2 : RecvBuf), b.appendChunk c = some b2 →
      ∃ d, b2 = .buffering d) ∧
    (∀ b b2 : RecvBuf, b.markEnded = some b2 → ∃ d, b2 = .ended d) ∧
    (∀ (r : Receiver T E) (k : FatalKind), r.buffer_next_chunk ≠ .fatal k) ∧
    (∀ (r : Receiver T E) (k : FatalKind), r.recv ≠ .fatal k) ∧
    (∀ (r : Receiver T E) (k : FatalKind), r.try_recv_initial ≠ .fatal k) := by
  refine ⟨?_, ?_, ?_, ?_, ?_, buffer_next_chunk_no_fatal, recv_no_fatal,
    try_recv_initial_no_fatal⟩
  · intro b c
    cases b <;> simp
  · intro b
    cases b <;> simp
  · intro b
    cases b <;> simp
  · intro b c b2 h
    cases b with
    | empty =>
      refine ⟨c, ?_⟩
      simp only [RecvBuf.appendChunk_empty, Option.some.injEq] at h
      exact h.symm
    | buffering d =>
      refine ⟨d ++ c, ?_⟩
      simp only [RecvBuf.appendChunk_buffering, Option.some.injEq] at h
      exact h.symm
    | ended d => simp at h
  · intro b b2 h
    cases b with
    | empty =>
      refine ⟨[], ?_⟩
      simp only [RecvBuf.markEnded_empty, Option.some.injEq] at h
      exact h.symm
    | buffering d =>
      refine ⟨d, ?_⟩
      simp only [RecvBuf.markEnded_buffering, Option.some.injEq] at h
      exact h.symm
    | ended d => simp at h

/-- Specification vocabulary for C9: starting from `r`, successive `recv`
calls yield the given values, none of them touching the pending body (no
chunk pull happens between them). -/
def yieldsNoPull : Receiver T E → List T → Prop
  | _, [] => True
  | r, t :: rest =>
    ∃ r2, r.recv = .ok (some t) r2 ∧ r2.body = r.body ∧ yieldsNoPull r2 rest

theorem yieldsNoPull_frames {enc : Message → ByteSeq} :
    ∀ (fs : List Message) (ts : List T) (r : Receiver T E),
    DecodesAll r.decode_frame enc fs →
    List.Forall₂ (fun f t => r.unmarshaller f = .ok (.event t)) fs ts →
    r.buffered_message = none →
    r.buffer = .buffering ((fs.map enc).flatten) →
    yieldsNoPull r ts := by
  intro fs
  induction fs with
  | nil =>
    intro ts r _ hunm _ _
    cases hunm
    exact trivial
  | cons f fs2 ih =>
    intro ts r Hd hunm hmsg hbuf
    obtain ⟨t1, ts2, hrel, hrest, rfl⟩ := List.forall₂_cons_left_iff.mp hunm
    have hne := Hd.1 f (List.mem_cons_self f fs2)
    have hcomp := Hd.2.1 f (List.mem_cons_self f fs2)
    have hflat : (((f :: fs2)).map enc).flatten =
        enc f ++ (fs2.map enc).flatten := by simp
    have hdne : (((f :: fs2)).map enc).flatten ≠ [] := by
      rw [hflat]
      exact fun hb => hne (List.append_eq_nil.mp hb).1
    have hdec : r.decode_frame ((((f :: fs2)).map enc).flatten) =
        .complete f ((fs2.map enc).flatten) := by
      rw [hflat]
      exact hcomp _
    have hgo : nmGo (E := E) r.decode_frame r.buffer r.body =
        .ok (some f) (.buffering ((fs2.map enc).flatten), r.body) := by
      rw [hbuf]
      exact nmGo_complete_step hdne hdec r.body
    have hrecv := recv_of_next_message_some hmsg (next_message_of_nmGo hgo)
    refine ⟨⟨r.unmarshaller, r.decode_frame,
        .buffering ((fs2.map enc).flatten), r.body, r.buffered_message⟩,
      ?_, rfl, ?_⟩
    · rw [hrecv]
      unfold Receiver.unmarshall
      simp [hrel, Step.liftE]
    · exact ih ts2 _ Hd.tail hrest hmsg rfl

/-- C9: because decoding is attempted against already-buffered bytes before
any new pull, a single chunk containing two or more complete frames yields
each frame on successive `recv` calls: the first call pulls the one chunk
(leaving the rest of the body untouched) and every following call returns
the next frame without touching the body at all. -/
theorem multi_frame_per_chunk {enc : Message → ByteSeq} (r : Receiver T E)
    (fs : List Message) (ts : List T) (chunk : ByteSeq)
    (restBody : List BodyItem)
    (Hd : DecodesAll r.decode_frame enc fs)
    (hlen : 2 ≤ fs.length)
    (hbuf : r.buffer = .empty)
    (hmsg : r.buffered_message = none)
    (hbody : r.body = .ok chunk :: restBody)
    (hchunk : chunk = (fs.map enc).flatten)
    (hunm : List.Forall₂ (fun f t => r.unmarshaller f = .ok (.event t)) fs ts) :
    ∃ (t1 : T) (ts2 : List T) (r1 : Receiver T E),
      ts = t1 :: ts2 ∧ r.recv = .ok (some t1) r1 ∧ r1.body = restBody ∧
      yieldsNoPull r1 ts2 := by
  cases fs with
  | nil => simp at hlen
  | cons f fs2 =>
    obtain ⟨t1, ts2, hrel, hrest, rfl⟩ := List.forall₂_cons_left_iff.mp hunm
    have hne := Hd.1 f (List.mem_cons_self f fs2)
    have hcomp := Hd.2.1 f (List.mem_cons_self f fs2)
    have hstall : Stalled r.decode_frame .empty :=
      ⟨rfl, fun hd => by simp at hd⟩
    have hgo1 := nmGo_stalled_ok (E := E) hstall chunk restBody
    simp only [RecvBuf.bytes_empty, List.nil_append] at hgo1
    have hflat : (((f :: fs2)).map enc).flatten =
        enc f ++ (fs2.map enc).flatten := by simp
    have hdne : chunk ≠ [] := by
      rw [hchunk, hflat]
      exact fun hb => hne (List.append_eq_nil.mp hb).1
    have hdec : r.decode_frame chunk = .complete f ((fs2.map enc).flatten) := by
      rw [hchunk, hflat]
      exact hcomp _
    have hgo : nmGo (E := E) r.decode_frame r.buffer r.body =
        .ok (some f) (.buffering ((fs2.map enc).flatten), restBody) := by
      rw [hbuf, hbody, hgo1]
      exact nmGo_complete_step hdne hdec restBody
    have hrecv := recv_of_next_message_some hmsg (next_message_of_nmGo hgo)
    refine ⟨t1, ts2, ⟨r.unmarshaller, r.decode_frame,
        .buffering ((fs2.map enc).flatten), restBody, r.buffered_message⟩,
      rfl, ?_, rfl, ?_⟩
    · rw [hrecv]
      unfold Receiver.unmarshall
      simp [hrel, Step.liftE]
    · exact yieldsNoPull_frames fs2 ts2 _ Hd.tail hrest hmsg rfl

def wr9 : Receiver ByteSeq Nat :=
  ⟨demoUnm, demoDecode, .empty, [.ok [2, 9, 9, 1, 7]], none⟩

/-- C9 witness: one chunk carrying both frames; after the single pull, both
frames are yielded without the body being touched. -/
theorem multi_frame_per_chunk_witness :
    2 ≤ ([msgA, msgB] : List Message).length ∧
    (∃ (t1 : ByteSeq) (ts2 : List ByteSeq) (r1 : Receiver ByteSeq Nat),
      ([[9, 9], [7]] : List ByteSeq) = t1 :: ts2 ∧
      wr9.recv = .ok (some t1) r1 ∧ r1.body = [] ∧ yieldsNoPull r1 ts2) :=
  ⟨by decide,
    multi_frame_per_chunk wr9 [msgA, msgB] [[9, 9], [7]] [2, 9, 9, 1, 7] []
      (demoDecodesAll _ (by decide)) (by decide) rfl rfl rfl (by decide)
      (List.Forall₂.cons rfl (List.Forall₂.cons rfl List.Forall₂.nil))⟩

theorem next_message_ok_buffered {r r2 : Receiver T E} {v : Option Message}
    (h : r.next_message = .ok v r2) :
    r2.buffered_message = r.buffered_message := by
  unfold Receiver.next_message at h
  rcases hgo : nmGo (E := E) r.decode_frame r.buffer r.body
      with ⟨v2, buf, bd⟩ | ⟨e, buf, bd⟩ | k <;> rw [hgo] at h
  · simp only [Step.ok.injEq] at h
    rw [← h.2]
  · simp at h
  · simp at h

/-- C10: calling `try_recv_initial` with a frame already pending does not
return or preserve the pending frame: `next_message` pulls a new frame
(leaving the pending slot intact), and when the new frame has no
`:event-type` header the slot is overwritten with the new frame, silently
discarding the previously peeked one, while "not found" is returned. -/
theorem try_recv_initial_overwrites (r r2 : Receiver T E) (m0 m1 : Message)
    (h0 : r.buffered_message = some m0)
    (hnm : r.next_message = .ok (some m1) r2)
    (hhdr : m1.headers.find? (fun h => h.name == ":event-type") = none) :
    r2.buffered_message = some m0 ∧
    r.try_recv_initial = .ok none { r2 with buffered_message := some m1 } := by
  refine ⟨by rw [next_message_ok_buffered hnm, h0], ?_⟩
  unfold Receiver.try_recv_initial
  rw [hnm]
  simp [hhdr]

def wrC : Receiver ByteSeq Nat :=
  ⟨demoUnm, cexDecA, .buffering [0], [], some msgB⟩
def wrC2 : Receiver ByteSeq Nat :=
  ⟨demoUnm, cexDecA, .buffering [], [], some msgB⟩

/-- C10 witness: with `msgB` pending, a second peek pulls the header-less
`cexMsgNoHeader` and overwrites the slot with it. -/
theorem try_recv_initial_overwrites_witness :
    wrC.buffered_message = some msgB ∧
    (wrC2.buffered_message = some msgB ∧
      wrC.try_recv_initial =
        .ok none { wrC2 with buffered_message := some cexMsgNoHeader }) :=
  ⟨rfl, try_recv_initial_overwrites wrC wrC2 msgB cexMsgNoHeader rfl rfl rfl⟩

end SmithyHttp
